import Mathlib

/-
  Shallow embedding of the audioclassify service
  (src/services/audioclassify/main.py and src/services/audioclassify/models.py).

  Modelling choices:
  * Python floats are modelled as rationals.  The source rounds with
    Python's round(x, 4), i.e. round-half-to-even at four decimal places;
    pyRound4 below implements exactly that on rationals.
  * A Python dict with string keys is modelled as an association list
    that preserves insertion order; assignment updates an existing key in
    place, otherwise appends, exactly as CPython dicts behave.
  * Raw bytes are modelled as lists of naturals below 256; a decoded
    float32 sample is identified with its 32-bit little-endian bit
    pattern, since no claim depends on the numeric IEEE-754 value.
  * latency_ms is wall-clock time and is not modelled.
-/

namespace AudioClassify

/-- Round-half-to-even of a rational to the nearest integer, as Python's
round does for the fractional positions. -/
def pyRoundInt (q : ℚ) : ℤ :=
  if q - ⌊q⌋ < 1/2 then ⌊q⌋
  else if 1/2 < q - ⌊q⌋ then ⌊q⌋ + 1
  else if Even ⌊q⌋ then ⌊q⌋ else ⌊q⌋ + 1

/-- Python round(x, 4): round-half-to-even at four decimal places. -/
def pyRound4 (q : ℚ) : ℚ :=
  (pyRoundInt (q * 10000) : ℚ) / 10000

/-- The 32-bit word assembled little-endian from four bytes, which is the
bit pattern struct.unpack reads for one float32 sample. -/
def word32LE (b0 b1 b2 b3 : ℕ) : ℕ :=
  b0 + 256 * b1 + 65536 * b2 + 16777216 * b3

/-- main.py, _parse_float32: n = len(body) // 4; unpack n little-endian
float32 groups from the first 4n bytes, dropping the trailing remainder. -/
def _parse_float32 : List ℕ → List ℕ
  | b0 :: b1 :: b2 :: b3 :: rest => word32LE b0 b1 b2 b3 :: _parse_float32 rest
  | _ => []

/-- models.py SCENE_LABELS: bucket name to keyword set, in the source's
dict insertion order. -/
def SCENE_LABELS : List (String × List String) :=
  [ ("speech", ["Speech", "Narration, monologue", "Conversation", "Speech synthesizer"])
  , ("music", ["Music", "Musical instrument", "Singing", "Song"])
  , ("silence", ["Silence"])
  , ("noise", ["Noise", "White noise", "Static", "Hum", "Buzz",
               "Mechanical fan", "Air conditioning", "Engine"]) ]

/-- models.py EMOTION_LABELS. -/
def EMOTION_LABELS : List String :=
  ["neutral", "happy", "angry", "sad", "frustrated", "surprised"]

/-- The inner loop of _collapse_scene: the first bucket whose keyword set
contains the class name, else "other". -/
def bucketOf (name : String) : String :=
  match SCENE_LABELS.find? (fun p => p.2.contains name) with
  | some p => p.1
  | none => "other"

/-- The five-key bucket dict of _collapse_scene, one rational per fixed key. -/
structure Buckets where
  speech : ℚ
  music : ℚ
  silence : ℚ
  noise : ℚ
  other : ℚ
deriving DecidableEq, Repr

/-- The initial all-zero bucket dict. -/
def bucketInit : Buckets := ⟨0, 0, 0, 0, 0⟩

/-- buckets[bucket] += v for one of the five fixed keys. -/
def addScore (m : Buckets) (b : String) (v : ℚ) : Buckets :=
  if b = "speech" then { m with speech := m.speech + v }
  else if b = "music" then { m with music := m.music + v }
  else if b = "silence" then { m with silence := m.silence + v }
  else if b = "noise" then { m with noise := m.noise + v }
  else if b = "other" then { m with other := m.other + v }
  else m

/-- Read one of the five fixed bucket keys. -/
def bval (m : Buckets) (b : String) : ℚ :=
  if b = "speech" then m.speech
  else if b = "music" then m.music
  else if b = "silence" then m.silence
  else if b = "noise" then m.noise
  else if b = "other" then m.other
  else 0

/-- The accumulation loop of _collapse_scene over (score, class name)
pairs. -/
def collapseGo (m : Buckets) : List (ℚ × String) → Buckets
  | [] => m
  | (s, name) :: rest => collapseGo (addScore m (bucketOf name) s) rest

/-- The buckets of _collapse_scene before renormalization.  The source
iterates i over enumerate(class_names) reading scores_521[i]; it is only
invoked with lists of equal length (the 521-entry class table), which the
pairing by zip reproduces. -/
def collapsePre (scores_521 : List ℚ) (class_names : List String) : Buckets :=
  collapseGo bucketInit (scores_521.zip class_names)

/-- sum(buckets.values()). -/
def bucketsTotal (m : Buckets) : ℚ :=
  m.speech + m.music + m.silence + m.noise + m.other

/-- models.py _collapse_scene: accumulate per-class scores into the five
buckets, then divide every bucket by the total when the total is positive. -/
def _collapse_scene (scores_521 : List ℚ) (class_names : List String) : Buckets :=
  let buckets := collapsePre scores_521 class_names
  let total := bucketsTotal buckets
  if 0 < total then
    ⟨buckets.speech / total, buckets.music / total, buckets.silence / total,
     buckets.noise / total, buckets.other / total⟩
  else buckets

/-- The bucket dict as an association list in its insertion order. -/
def bucketsToList (m : Buckets) : List (String × ℚ) :=
  [("speech", m.speech), ("music", m.music), ("silence", m.silence),
   ("noise", m.noise), ("other", m.other)]

/-- Lookup in a string-keyed association list, first match, default 0. -/
def lookupD (m : List (String × ℚ)) (k : String) : ℚ :=
  match m.find? (fun p => p.1 = k) with
  | some p => p.2
  | none => 0

/-- One comparison step of Python max: keep the current best unless the
next entry is strictly greater. -/
def maxStep (best q : String × ℚ) : String × ℚ :=
  if best.2 < q.2 then q else best

/-- Python max(d, key=d.get): the first key attaining the maximal value;
empty input never occurs in the source (max would raise). -/
def maxKey (m : List (String × ℚ)) : String :=
  match m with
  | [] => ""
  | p :: rest => (rest.foldl maxStep p).1

/-- A classification result: label, confidence and the scores dict.
latency_ms is wall-clock time and is left out of the model. -/
structure ClassifyResult where
  label : String
  confidence : ℚ
  scores : List (String × ℚ)
deriving DecidableEq, Repr

/-- models.py SceneClassifier.classify after the model call: collapse the
averaged per-class scores, pick the argmax bucket, round for output. -/
def SceneClassifier.classify (avg_scores : List ℚ) (class_names : List String) :
    ClassifyResult :=
  let collapsed := bucketsToList (_collapse_scene avg_scores class_names)
  let label := maxKey collapsed
  { label := label
  , confidence := pyRound4 (lookupD collapsed label)
  , scores := collapsed.map (fun p => (p.1, pyRound4 p.2)) }

/-- The labels field of a model result entry: missing, a bare string, or
a list of strings. -/
inductive LabelsField where
  | absent
  | one (s : String)
  | many (ls : List String)
deriving DecidableEq, Repr

/-- The scores field of a model result entry: missing, a bare number, or
a list of numbers. -/
inductive ScoresField where
  | absent
  | one (q : ℚ)
  | many (qs : List ℚ)
deriving DecidableEq, Repr

/-- One entry of the emotion model's result list. -/
structure ModelEntry where
  labels : LabelsField
  scores : ScoresField
deriving DecidableEq, Repr

/-- The empty dict used when the model result list is empty. -/
def emptyEntry : ModelEntry := ⟨.absent, .absent⟩

/-- entry.get("labels", EMOTION_LABELS) followed by the wrap of a bare
string into a one-element list. -/
def extractLabels : LabelsField → List String
  | .absent => EMOTION_LABELS
  | .one s => [s]
  | .many ls => ls

/-- entry.get("scores", []) followed by the wrap of a bare number into a
one-element list. -/
def extractScores : ScoresField → List ℚ
  | .absent => []
  | .one q => [q]
  | .many qs => qs

/-- The label mapping of EmotionClassifier.classify: the literal label
when it is in the vocabulary, else the vocabulary entry at the same
index, else the literal label. -/
def mappedLabel (lbl : String) (i : ℕ) : String :=
  if EMOTION_LABELS.contains lbl then lbl
  else if i < EMOTION_LABELS.length then EMOTION_LABELS.getD i lbl
  else lbl

/-- The score chosen for position i: round(float(probs[i]), 4) when probs
has an entry there, else 0.0. -/
def scoreAt (probs : List ℚ) (i : ℕ) : ℚ :=
  if i < probs.length then pyRound4 (probs.getD i 0) else 0

/-- Python dict assignment d[k] = v on an association list: update the
existing key in place, otherwise append. -/
def dictInsert (m : List (String × ℚ)) (k : String) (v : ℚ) :
    List (String × ℚ) :=
  if m.any (fun p => p.1 = k) then
    m.map (fun p => if p.1 = k then (k, v) else p)
  else m ++ [(k, v)]

/-- The score-building loop of EmotionClassifier.classify, carrying the
running dict and the enumerate index. -/
def buildScores (probs : List ℚ) : List (String × ℚ) → ℕ → List String →
    List (String × ℚ)
  | m, _, [] => m
  | m, i, lbl :: rest =>
      buildScores probs (dictInsert m (mappedLabel lbl i) (scoreAt probs i)) (i + 1) rest

/-- models.py EmotionClassifier.classify after the model call: read the
first result entry (empty dict if none), build the mapped score dict,
fall back to neutral when it is empty, pick the argmax label. -/
def EmotionClassifier.classify (modelOutput : List ModelEntry) : ClassifyResult :=
  let entry := modelOutput.headD emptyEntry
  let labels := extractLabels entry.labels
  let probs := extractScores entry.scores
  let scores0 := buildScores probs [] 0 labels
  let scores := if scores0.isEmpty then [("neutral", 1)] else scores0
  let label := maxKey scores
  { label := label
  , confidence := pyRound4 (lookupD scores label)
  , scores := scores }

/-- The key k is a Python-style argmax of the dict m: k is a key of m and
the value stored at k dominates every value of m. -/
def isArgmax (m : List (String × ℚ)) (k : String) : Prop :=
  (∃ p ∈ m, p.1 = k) ∧ ∀ p ∈ m, p.2 ≤ lookupD m k

/-! ### Rounding lemmas -/

/-- Rounding an integer value is the identity. -/
theorem pyRoundInt_intCast (z : ℤ) : pyRoundInt (z : ℚ) = z := by
  have h1 : ⌊(z : ℚ)⌋ = z := Int.floor_intCast z
  unfold pyRoundInt
  rw [h1]
  norm_num

/-- The rounded value never falls below the floor. -/
theorem le_pyRoundInt (q : ℚ) : ⌊q⌋ ≤ pyRoundInt q := by
  unfold pyRoundInt
  split_ifs <;> omega

/-- The rounded value never exceeds the floor plus one. -/
theorem pyRoundInt_le (q : ℚ) : pyRoundInt q ≤ ⌊q⌋ + 1 := by
  unfold pyRoundInt
  split_ifs <;> omega

/-- Round-half-to-even is monotone. -/
theorem pyRoundInt_mono {a b : ℚ} (h : a ≤ b) : pyRoundInt a ≤ pyRoundInt b := by
  rcases eq_or_lt_of_le (Int.floor_le_floor h) with hf | hf
  · have hfab : a - (⌊a⌋ : ℚ) ≤ b - (⌊b⌋ : ℚ) := by
      rw [hf]; linarith
    unfold pyRoundInt
    rw [hf]
    rw [hf] at hfab
    split_ifs <;> first | omega | (exfalso; linarith)
  · calc pyRoundInt a ≤ ⌊a⌋ + 1 := pyRoundInt_le a
    _ ≤ ⌊b⌋ := by omega
    _ ≤ pyRoundInt b := le_pyRoundInt b

/-- pyRound4 is monotone. -/
theorem pyRound4_mono {a b : ℚ} (h : a ≤ b) : pyRound4 a ≤ pyRound4 b := by
  unfold pyRound4
  have h1 : a * 10000 ≤ b * 10000 := by linarith
  have h2 : (pyRoundInt (a * 10000) : ℚ) ≤ (pyRoundInt (b * 10000) : ℚ) := by
    exact_mod_cast pyRoundInt_mono h1
  linarith

/-- pyRound4 is idempotent. -/
theorem pyRound4_idem (q : ℚ) : pyRound4 (pyRound4 q) = pyRound4 q := by
  unfold pyRound4
  rw [div_mul_cancel₀ _ (by norm_num : (10000 : ℚ) ≠ 0), pyRoundInt_intCast]

/-- pyRound4 fixes zero. -/
theorem pyRound4_zero : pyRound4 0 = 0 := by
  unfold pyRound4
  rw [zero_mul, show ((0 : ℚ)) = ((0 : ℤ) : ℚ) by norm_num, pyRoundInt_intCast]
  norm_num

/-- pyRound4 fixes one. -/
theorem pyRound4_one : pyRound4 1 = 1 := by
  unfold pyRound4
  rw [one_mul, show ((10000 : ℚ)) = ((10000 : ℤ) : ℚ) by norm_num, pyRoundInt_intCast]
  norm_num

/-! ### Association-list and argmax lemmas -/

/-- The folding step of maxKey stays inside the candidate list. -/
theorem foldMax_mem : ∀ (l : List (String × ℚ)) (p : String × ℚ),
    l.foldl maxStep p ∈ p :: l
  | [], _ => List.mem_singleton.mpr rfl
  | a :: l, p => by
      have ih := foldMax_mem l (maxStep p a)
      rcases List.mem_cons.mp ih with h | h
      · rw [List.foldl_cons, h]
        unfold maxStep
        split_ifs <;> simp
      · simp [List.foldl_cons, List.mem_cons, h]

/-- The folding step of maxKey never decreases the running value. -/
theorem foldMax_start_le : ∀ (l : List (String × ℚ)) (p : String × ℚ),
    p.2 ≤ (l.foldl maxStep p).2
  | [], _ => le_refl _
  | a :: l, p => by
      have ih := foldMax_start_le l (maxStep p a)
      rw [List.foldl_cons]
      refine le_trans ?_ ih
      unfold maxStep
      split_ifs with h
      · exact le_of_lt h
      · exact le_refl _

/-- Every candidate value is bounded by the fold of maxKey. -/
theorem foldMax_le : ∀ (l : List (String × ℚ)) (p q : String × ℚ), q ∈ p :: l →
    q.2 ≤ (l.foldl maxStep p).2
  | [], p, q, hq => by
      rw [List.mem_singleton.mp hq]
      exact le_refl _
  | a :: l, p, q, hq => by
      rw [List.foldl_cons]
      rcases List.mem_cons.mp hq with h | h
      · subst h
        refine le_trans ?_ (foldMax_start_le l _)
        unfold maxStep
        split_ifs with hcmp
        · exact le_of_lt hcmp
        · exact le_refl _
      · rcases List.mem_cons.mp h with h2 | h2
        · subst h2
          refine le_trans ?_ (foldMax_start_le l _)
          unfold maxStep
          split_ifs with hcmp
          · exact le_refl _
          · exact le_of_not_lt hcmp
        · exact foldMax_le l _ q (List.mem_cons_of_mem _ h2)

/-- maxKey of a nonempty dict names an entry whose value dominates all
values, i.e. a Python-style first argmax. -/
theorem maxKey_spec (m : List (String × ℚ)) (hm : m ≠ []) :
    ∃ p ∈ m, p.1 = maxKey m ∧ ∀ q ∈ m, q.2 ≤ p.2 := by
  rcases m with _ | ⟨p, rest⟩
  · exact absurd rfl hm
  · exact ⟨rest.foldl maxStep p, foldMax_mem rest p, rfl,
      fun q hq => foldMax_le rest p q hq⟩

/-- lookupD on a head match returns the head value. -/
theorem lookupD_cons_pos (a : String × ℚ) (m : List (String × ℚ)) (k : String)
    (h : a.1 = k) : lookupD (a :: m) k = a.2 := by
  unfold lookupD
  rw [List.find?_cons_of_pos _ (by simpa using h)]

/-- lookupD skips a non-matching head. -/
theorem lookupD_cons_neg (a : String × ℚ) (m : List (String × ℚ)) (k : String)
    (h : ¬ a.1 = k) : lookupD (a :: m) k = lookupD m k := by
  unfold lookupD
  rw [List.find?_cons_of_neg _ (by simpa using h)]

/-- With nodup keys, lookupD finds the value of any member entry. -/
theorem lookupD_eq_of_mem : ∀ (m : List (String × ℚ)) (p : String × ℚ),
    (m.map Prod.fst).Nodup → p ∈ m → lookupD m p.1 = p.2
  | [], p, _, hp => absurd hp (List.not_mem_nil p)
  | a :: m, p, hnd, hp => by
      have hcons : a.1 ∉ m.map Prod.fst ∧ (m.map Prod.fst).Nodup := by
        rw [List.map_cons] at hnd
        exact ⟨(List.nodup_cons.mp hnd).1, (List.nodup_cons.mp hnd).2⟩
      rcases List.mem_cons.mp hp with h | h
      · subst h
        exact lookupD_cons_pos p m p.1 rfl
      · have hne : ¬ a.1 = p.1 := fun hcontra =>
          hcons.1 (hcontra ▸ List.mem_map_of_mem Prod.fst h)
        rw [lookupD_cons_neg a m p.1 hne]
        exact lookupD_eq_of_mem m p hcons.2 h

/-- lookupD through per-value rounding of the dict. -/
theorem lookupD_map_round : ∀ (m : List (String × ℚ)) (k : String),
    lookupD (m.map (fun p => (p.1, pyRound4 p.2))) k = pyRound4 (lookupD m k)
  | [], k => by
      simp only [List.map_nil]
      unfold lookupD
      simp [List.find?, pyRound4_zero]
  | a :: m, k => by
      rw [List.map_cons]
      by_cases h : a.1 = k
      · rw [lookupD_cons_pos _ _ _ (by simpa using h), lookupD_cons_pos a m k h]
      · rw [lookupD_cons_neg _ _ _ (by simpa using h), lookupD_cons_neg a m k h]
        exact lookupD_map_round m k

/-- dictInsert does not disturb the nodup-keys invariant. -/
theorem dictInsert_nodup (m : List (String × ℚ)) (k : String) (v : ℚ)
    (hnd : (m.map Prod.fst).Nodup) : ((dictInsert m k v).map Prod.fst).Nodup := by
  unfold dictInsert
  split_ifs with h
  · have : (m.map (fun p => if p.1 = k then (k, v) else p)).map Prod.fst
        = m.map Prod.fst := by
      rw [List.map_map]
      refine List.map_congr_left ?_
      intro p _
      by_cases hp : p.1 = k
      · simp [hp]
      · simp [hp]
    rw [this]
    exact hnd
  · rw [List.map_append]
    refine List.Nodup.append hnd (by simp) ?_
    intro x hx hy
    simp only [List.map_cons, List.map_nil, List.mem_singleton] at hy
    subst hy
    simp only [List.any_eq_true, decide_eq_true_eq] at h
    exact h (by
      rcases List.mem_map.mp hx with ⟨p, hp, hpk⟩
      exact ⟨p, hp, hpk⟩)

/-- Every entry of dictInsert is the inserted pair's key or an old entry's key. -/
theorem dictInsert_mem (m : List (String × ℚ)) (k : String) (v : ℚ)
    (p : String × ℚ) (hp : p ∈ dictInsert m k v) :
    p.1 = k ∨ ∃ q ∈ m, p.1 = q.1 := by
  unfold dictInsert at hp
  split_ifs at hp with h
  · rcases List.mem_map.mp hp with ⟨q, hq, hqp⟩
    by_cases hqk : q.1 = k
    · rw [if_pos hqk] at hqp
      left; rw [← hqp]
    · rw [if_neg hqk] at hqp
      right; exact ⟨q, hq, by rw [← hqp]⟩
  · rcases List.mem_append.mp hp with h2 | h2
    · right; exact ⟨p, h2, rfl⟩
    · left
      rw [List.mem_singleton.mp h2]

/-- Every value of dictInsert satisfies a predicate holding of the old
values and the inserted value. -/
theorem dictInsert_values (m : List (String × ℚ)) (k : String) (v : ℚ)
    (P : ℚ → Prop) (hm : ∀ p ∈ m, P p.2) (hv : P v) :
    ∀ p ∈ dictInsert m k v, P p.2 := by
  intro p hp
  unfold dictInsert at hp
  split_ifs at hp with h
  · rcases List.mem_map.mp hp with ⟨q, hq, hqp⟩
    by_cases hqk : q.1 = k
    · rw [if_pos hqk] at hqp
      rw [← hqp]
      exact hv
    · rw [if_neg hqk] at hqp
      rw [← hqp]
      exact hm q hq
  · rcases List.mem_append.mp hp with h2 | h2
    · exact hm p h2
    · rw [List.mem_singleton.mp h2]
      exact hv

/-! ### Scene bucket lemmas -/

/-- bucketOf always lands on one of the five fixed bucket keys. -/
theorem bucketOf_mem (name : String) :
    bucketOf name = "speech" ∨ bucketOf name = "music" ∨ bucketOf name = "silence"
    ∨ bucketOf name = "noise" ∨ bucketOf name = "other" := by
  unfold bucketOf
  rcases hfind : SCENE_LABELS.find? (fun p => p.2.contains name) with _ | p
  · rw [hfind]
    tauto
  · rw [hfind]
    have hp : p ∈ SCENE_LABELS := List.mem_of_find?_eq_some hfind
    simp only [SCENE_LABELS, List.mem_cons, List.not_mem_nil, or_false] at hp
    rcases hp with h | h | h | h <;> subst h <;> simp

/-- addScore adds to the speech field exactly when told to. -/
theorem addScore_speech (m : Buckets) (b : String) (v : ℚ) :
    (addScore m b v).speech = m.speech + if b = "speech" then v else 0 := by
  unfold addScore
  split_ifs <;> simp_all

/-- addScore adds to the music field exactly when told to. -/
theorem addScore_music (m : Buckets) (b : String) (v : ℚ) :
    (addScore m b v).music = m.music + if b = "music" then v else 0 := by
  unfold addScore
  split_ifs <;> simp_all

/-- addScore adds to the silence field exactly when told to. -/
theorem addScore_silence (m : Buckets) (b : String) (v : ℚ) :
    (addScore m b v).silence = m.silence + if b = "silence" then v else 0 := by
  unfold addScore
  split_ifs <;> simp_all

/-- addScore adds to the noise field exactly when told to. -/
theorem addScore_noise (m : Buckets) (b : String) (v : ℚ) :
    (addScore m b v).noise = m.noise + if b = "noise" then v else 0 := by
  unfold addScore
  split_ifs <;> simp_all

/-- addScore adds to the other field exactly when told to. -/
theorem addScore_other (m : Buckets) (b : String) (v : ℚ) :
    (addScore m b v).other = m.other + if b = "other" then v else 0 := by
  unfold addScore
  split_ifs <;> simp_all

/-- addScore at one of the five keys raises the total by the added score. -/
theorem bucketsTotal_addScore (m : Buckets) (b : String) (v : ℚ)
    (hb : b = "speech" ∨ b = "music" ∨ b = "silence" ∨ b = "noise" ∨ b = "other") :
    bucketsTotal (addScore m b v) = bucketsTotal m + v := by
  unfold bucketsTotal
  rw [addScore_speech, addScore_music, addScore_silence, addScore_noise,
    addScore_other]
  rcases hb with h | h | h | h | h <;> subst h <;> simp <;> ring

/-- The accumulation loop raises the total by the sum of all scores. -/
theorem collapseGo_total : ∀ (l : List (ℚ × String)) (m : Buckets),
    bucketsTotal (collapseGo m l) = bucketsTotal m + (l.map Prod.fst).sum
  | [], m => by simp [collapseGo]
  | (s, name) :: rest, m => by
      rw [collapseGo, collapseGo_total rest _,
        bucketsTotal_addScore m (bucketOf name) s (bucketOf_mem name)]
      simp only [List.map_cons, List.sum_cons]
      ring

/-- bval of addScore: the named field grows, others are untouched, for any
of the five fixed target keys. -/
theorem bval_addScore (m : Buckets) (b : String) (v : ℚ) (b' : String)
    (hb : b = "speech" ∨ b = "music" ∨ b = "silence" ∨ b = "noise" ∨ b = "other") :
    bval (addScore m b v) b' = bval m b' + if b' = b then v else 0 := by
  unfold bval
  rw [addScore_speech, addScore_music, addScore_silence, addScore_noise,
    addScore_other]
  rcases hb with h | h | h | h | h <;> subst h <;> split_ifs <;> simp_all

/-- The accumulation loop routes each score entirely into the bucket its
class name selects: bval after the loop is bval before plus the sum of the
scores of exactly the classes routed to that bucket. -/
theorem collapseGo_bval : ∀ (l : List (ℚ × String)) (m : Buckets) (b : String),
    bval (collapseGo m l) b
      = bval m b + ((l.filter (fun p => bucketOf p.2 = b)).map Prod.fst).sum
  | [], m, b => by simp [collapseGo]
  | (s, name) :: rest, m, b => by
      rw [collapseGo, collapseGo_bval rest _ b,
        bval_addScore m (bucketOf name) s b (bucketOf_mem name)]
      by_cases h : bucketOf name = b
      · rw [List.filter_cons_of_pos (by simpa using h), if_pos h.symm]
        simp only [List.map_cons, List.sum_cons]
        ring
      · rw [List.filter_cons_of_neg (by simpa using h),
          if_neg (fun hc => h hc.symm)]
        ring

/-! ### Emotion score-building lemmas -/

/-- Every chosen score is a fixed point of pyRound4. -/
theorem scoreAt_fix (probs : List ℚ) (i : ℕ) :
    pyRound4 (scoreAt probs i) = scoreAt probs i := by
  unfold scoreAt
  split_ifs
  · exact pyRound4_idem _
  · exact pyRound4_zero

/-- A mapped label within the vocabulary bound lands in the vocabulary. -/
theorem mappedLabel_mem (lbl : String) (i : ℕ) (h : i < EMOTION_LABELS.length) :
    mappedLabel lbl i ∈ EMOTION_LABELS := by
  unfold mappedLabel
  by_cases h1 : EMOTION_LABELS.contains lbl = true
  · rw [if_pos h1]
    simpa using h1
  · rw [if_neg h1, if_pos h, List.getD_eq_getElem _ _ h]
    exact List.getElem_mem h

/-- The score-building loop keeps the nodup-keys invariant. -/
theorem buildScores_nodup (probs : List ℚ) : ∀ (labels : List String) (i : ℕ)
    (m : List (String × ℚ)), (m.map Prod.fst).Nodup →
    ((buildScores probs m i labels).map Prod.fst).Nodup
  | [], _, m, hm => hm
  | lbl :: rest, i, m, hm =>
      buildScores_nodup probs rest (i + 1) _ (dictInsert_nodup m _ _ hm)

/-- Every value produced by the score-building loop is a fixed point of
pyRound4. -/
theorem buildScores_values (probs : List ℚ) : ∀ (labels : List String) (i : ℕ)
    (m : List (String × ℚ)), (∀ p ∈ m, pyRound4 p.2 = p.2) →
    ∀ p ∈ buildScores probs m i labels, pyRound4 p.2 = p.2
  | [], _, _, hm => hm
  | lbl :: rest, i, m, hm =>
      buildScores_values probs rest (i + 1) _
        (dictInsert_values m _ _ (fun v => pyRound4 v = v) hm (scoreAt_fix probs i))

/-- When the enumerate index stays within the vocabulary length, every key
produced by the score-building loop is a vocabulary label. -/
theorem buildScores_keys (probs : List ℚ) : ∀ (labels : List String) (i : ℕ)
    (m : List (String × ℚ)), (∀ p ∈ m, p.1 ∈ EMOTION_LABELS) →
    i + labels.length ≤ EMOTION_LABELS.length →
    ∀ p ∈ buildScores probs m i labels, p.1 ∈ EMOTION_LABELS
  | [], _, _, hm, _ => hm
  | lbl :: rest, i, m, hm, hlen => by
      refine buildScores_keys probs rest (i + 1) _ ?_ ?_
      · intro p hp
        rcases dictInsert_mem m (mappedLabel lbl i) (scoreAt probs i) p hp with h | ⟨q, hq, hpq⟩
        · rw [h]
          exact mappedLabel_mem lbl i (by
            simp only [List.length_cons] at hlen
            omega)
        · rw [hpq]
          exact hm q hq
      · simp only [List.length_cons] at hlen
        omega

/-! ### Byte decoder lemmas -/

/-- The decoder yields one sample per full 4-byte group. -/
theorem parse_length : ∀ (body : List ℕ),
    (_parse_float32 body).length = body.length / 4
  | [] => rfl
  | [a] => by
      have hp : _parse_float32 [a] = [] := rfl
      rw [hp]
      simp
  | [a, b] => by
      have hp : _parse_float32 [a, b] = [] := rfl
      rw [hp]
      simp
  | [a, b, c] => by
      have hp : _parse_float32 [a, b, c] = [] := rfl
      rw [hp]
      simp
  | b0 :: b1 :: b2 :: b3 :: rest => by
      have ih := parse_length rest
      have hlen : (b0 :: b1 :: b2 :: b3 :: rest).length = rest.length + 4 := rfl
      show ((_parse_float32 rest).length + 1) = _
      rw [ih, hlen]
      omega

/-- Sample i of the decoder is the little-endian word of bytes 4i..4i+3. -/
theorem parse_getD : ∀ (body : List ℕ) (i : ℕ), i < body.length / 4 →
    (_parse_float32 body).getD i 0
      = word32LE (body.getD (4 * i) 0) (body.getD (4 * i + 1) 0)
          (body.getD (4 * i + 2) 0) (body.getD (4 * i + 3) 0)
  | [], i, h => by
      simp only [List.length_nil] at h
      omega
  | [_], i, h => by
      simp only [List.length_cons, List.length_nil] at h
      omega
  | [_, _], i, h => by
      simp only [List.length_cons, List.length_nil] at h
      omega
  | [_, _, _], i, h => by
      simp only [List.length_cons, List.length_nil] at h
      omega
  | b0 :: b1 :: b2 :: b3 :: rest, 0, _ => rfl
  | b0 :: b1 :: b2 :: b3 :: rest, i + 1, h => by
      refine parse_getD rest i ?_
      have hlen : (b0 :: b1 :: b2 :: b3 :: rest).length = rest.length + 4 := rfl
      rw [hlen] at h
      omega

/-! ### Classify unfolding equations and shared helpers -/

/-- The scores field of the emotion result, written without lets. -/
theorem emotion_scores_eq (out : List ModelEntry) :
    (EmotionClassifier.classify out).scores
      = (if (buildScores (extractScores (out.headD emptyEntry).scores) [] 0
              (extractLabels (out.headD emptyEntry).labels)).isEmpty
         then [("neutral", 1)]
         else buildScores (extractScores (out.headD emptyEntry).scores) [] 0
              (extractLabels (out.headD emptyEntry).labels)) := rfl

/-- The emotion label is the argmax key of the emotion scores dict. -/
theorem emotion_label_eq (out : List ModelEntry) :
    (EmotionClassifier.classify out).label
      = maxKey (EmotionClassifier.classify out).scores := rfl

/-- The emotion confidence is the rounded lookup of the label. -/
theorem emotion_confidence_eq (out : List ModelEntry) :
    (EmotionClassifier.classify out).confidence
      = pyRound4 (lookupD (EmotionClassifier.classify out).scores
          (EmotionClassifier.classify out).label) := rfl

/-- The scene scores dict is the rounded collapsed bucket dict. -/
theorem scene_scores_eq (avg_scores : List ℚ) (class_names : List String) :
    (SceneClassifier.classify avg_scores class_names).scores
      = (bucketsToList (_collapse_scene avg_scores class_names)).map
          (fun p => (p.1, pyRound4 p.2)) := rfl

/-- The scene label is the argmax key of the unrounded bucket dict. -/
theorem scene_label_eq (avg_scores : List ℚ) (class_names : List String) :
    (SceneClassifier.classify avg_scores class_names).label
      = maxKey (bucketsToList (_collapse_scene avg_scores class_names)) := rfl

/-- The scene confidence is the rounded lookup of the label in the
unrounded bucket dict. -/
theorem scene_confidence_eq (avg_scores : List ℚ) (class_names : List String) :
    (SceneClassifier.classify avg_scores class_names).confidence
      = pyRound4 (lookupD (bucketsToList (_collapse_scene avg_scores class_names))
          (maxKey (bucketsToList (_collapse_scene avg_scores class_names)))) := rfl

/-- For a nonempty dict with nodup keys and pyRound4-fixed values, maxKey
is an argmax and the lookup at it is pyRound4-fixed. -/
theorem argmax_of_goodDict (S : List (String × ℚ)) (hne : S ≠ [])
    (hnd : (S.map Prod.fst).Nodup) (hfix : ∀ p ∈ S, pyRound4 p.2 = p.2) :
    isArgmax S (maxKey S)
    ∧ pyRound4 (lookupD S (maxKey S)) = lookupD S (maxKey S) := by
  obtain ⟨p, hp, hpk, hmax⟩ := maxKey_spec S hne
  have hlook : lookupD S (maxKey S) = p.2 := by
    rw [← hpk]
    exact lookupD_eq_of_mem S p hnd hp
  refine ⟨⟨⟨p, hp, hpk⟩, ?_⟩, ?_⟩
  · intro q hq
    rw [hlook]
    exact hmax q hq
  · rw [hlook]
    exact hfix p hp

/-- Adding a zero score changes no bucket. -/
theorem addScore_zero (m : Buckets) (b : String) : addScore m b 0 = m := by
  cases m
  unfold addScore
  split_ifs <;> simp

/-- The accumulation loop over all-zero scores is the identity. -/
theorem collapseGo_zero : ∀ (l : List (ℚ × String)),
    (∀ p ∈ l, Prod.fst p = (0 : ℚ)) → ∀ m, collapseGo m l = m
  | [], _, _ => rfl
  | (s, name) :: rest, h, m => by
      have hs : s = 0 := h (s, name) (List.mem_cons_self _ _)
      rw [collapseGo, hs, addScore_zero]
      exact collapseGo_zero rest (fun p hp => h p (List.mem_cons_of_mem _ hp)) m

/-- Every bucket of the initial dict is zero. -/
theorem bval_bucketInit (b : String) : bval bucketInit b = 0 := by
  unfold bval bucketInit
  split_ifs <;> rfl

/-- With equally long inputs, the pre-normalization bucket total is the
sum of all input scores. -/
theorem collapsePre_total (scores : List ℚ) (names : List String)
    (hlen : scores.length = names.length) :
    bucketsTotal (collapsePre scores names) = scores.sum := by
  rw [collapsePre, collapseGo_total]
  have h0 : bucketsTotal bucketInit = 0 := by norm_num [bucketsTotal, bucketInit]
  rw [h0, zero_add, List.map_fst_zip _ _ (le_of_eq hlen)]

/-- One step of the score-building loop. -/
theorem buildScores_cons (probs : List ℚ) (m : List (String × ℚ)) (i : ℕ)
    (lbl : String) (rest : List String) :
    buildScores probs m i (lbl :: rest)
      = buildScores probs (dictInsert m (mappedLabel lbl i) (scoreAt probs i))
          (i + 1) rest := rfl

/-- The score-building loop on no labels returns the dict unchanged. -/
theorem buildScores_nil (probs : List ℚ) (m : List (String × ℚ)) (i : ℕ) :
    buildScores probs m i [] = m := rfl

/-- pyRound4 fixes every rational that is an integer number of
ten-thousandths. -/
theorem pyRound4_fix_of (q : ℚ) (z : ℤ) (h : q * 10000 = (z : ℚ)) :
    pyRound4 q = q := by
  unfold pyRound4
  rw [h, pyRoundInt_intCast, ← h]
  field_simp

/-- bucketsTotal written out. -/
theorem bucketsTotal_def (m : Buckets) :
    bucketsTotal m = m.speech + m.music + m.silence + m.noise + m.other := rfl

/-- _collapse_scene written without lets. -/
theorem collapse_scene_eq (scores : List ℚ) (names : List String) :
    _collapse_scene scores names
      = if 0 < bucketsTotal (collapsePre scores names) then
          ⟨(collapsePre scores names).speech / bucketsTotal (collapsePre scores names),
           (collapsePre scores names).music / bucketsTotal (collapsePre scores names),
           (collapsePre scores names).silence / bucketsTotal (collapsePre scores names),
           (collapsePre scores names).noise / bucketsTotal (collapsePre scores names),
           (collapsePre scores names).other / bucketsTotal (collapsePre scores names)⟩
        else collapsePre scores names := rfl

/-- The emotion scores dict is always nonempty, has nodup keys, and holds
only pyRound4-fixed values. -/
theorem emotion_scores_good (out : List ModelEntry) :
    (EmotionClassifier.classify out).scores ≠ []
    ∧ (((EmotionClassifier.classify out).scores.map Prod.fst).Nodup)
    ∧ ∀ p ∈ (EmotionClassifier.classify out).scores, pyRound4 p.2 = p.2 := by
  rw [emotion_scores_eq]
  by_cases h : (buildScores (extractScores (out.headD emptyEntry).scores) [] 0
      (extractLabels (out.headD emptyEntry).labels)).isEmpty
  · rw [if_pos h]
    refine ⟨by simp, by simp, ?_⟩
    intro p hp
    rw [List.mem_singleton.mp hp]
    exact pyRound4_one
  · rw [if_neg h]
    refine ⟨?_, ?_, ?_⟩
    · intro hc
      rw [hc] at h
      exact h rfl
    · exact buildScores_nodup _ _ 0 [] (by simp)
    · exact buildScores_values _ _ 0 [] (by simp)

/-- Full evaluation of the emotion classify on an empty model result
list: labels default to the whole vocabulary, scores default to empty, so
every vocabulary label scores 0.0 and the argmax is the first key. -/
theorem classify_nil_eval :
    (EmotionClassifier.classify ([] : List ModelEntry)).label = "neutral"
    ∧ (EmotionClassifier.classify ([] : List ModelEntry)).confidence = 0
    ∧ (EmotionClassifier.classify ([] : List ModelEntry)).scores
        = [("neutral", 0), ("happy", 0), ("angry", 0), ("sad", 0),
           ("frustrated", 0), ("surprised", 0)] := by
  have hb : buildScores [] [] 0 EMOTION_LABELS
      = [("neutral", 0), ("happy", 0), ("angry", 0), ("sad", 0),
         ("frustrated", 0), ("surprised", 0)] := by
    simp only [EMOTION_LABELS]
    iterate 6 (rw [buildScores_cons]
               simp [dictInsert, mappedLabel, scoreAt, EMOTION_LABELS,
                 List.contains, List.elem])
    simp only [buildScores_nil]
  have hs : (EmotionClassifier.classify ([] : List ModelEntry)).scores
      = [("neutral", 0), ("happy", 0), ("angry", 0), ("sad", 0),
         ("frustrated", 0), ("surprised", 0)] := by
    rw [emotion_scores_eq]
    simp only [List.headD, emptyEntry, extractLabels, extractScores]
    rw [hb]
    simp
  have hl : (EmotionClassifier.classify ([] : List ModelEntry)).label = "neutral" := by
    rw [emotion_label_eq, hs]
    norm_num [maxKey, maxStep, List.foldl]
  have hc : (EmotionClassifier.classify ([] : List ModelEntry)).confidence = 0 := by
    rw [emotion_confidence_eq, hs, hl]
    simp [lookupD, List.find?, pyRound4_zero]
  exact ⟨hl, hc, hs⟩

/-! ### Claim theorems -/

/-- C3: for every byte buffer of length 4n + r with r in 0..3, the byte
decoder produces exactly n samples, each the little-endian 32-bit word of
its consecutive 4-byte group, dropping the trailing r bytes; the empty
buffer yields the empty sequence. -/
theorem claim_C3_byte_decoder (body : List ℕ) :
    (_parse_float32 body).length = body.length / 4
    ∧ (∀ i, i < body.length / 4 →
        (_parse_float32 body).getD i 0
          = word32LE (body.getD (4 * i) 0) (body.getD (4 * i + 1) 0)
              (body.getD (4 * i + 2) 0) (body.getD (4 * i + 3) 0))
    ∧ _parse_float32 [] = [] :=
  ⟨parse_length body, fun i hi => parse_getD body i hi, rfl⟩

/-- Witness for C3 at a concrete 6-byte buffer: one sample, built from
the first four bytes, the trailing two dropped. -/
theorem claim_C3_witness :
    (_parse_float32 [1, 2, 3, 4, 5, 6]).getD 0 0 = word32LE 1 2 3 4 :=
  (claim_C3_byte_decoder [1, 2, 3, 4, 5, 6]).2.1 0 (by decide)

/-- C6: in the scene collapse, the class "Engine" routes to the "noise"
bucket, "Singing" to "music", the unrecognized "Dog barking" to "other",
and every class's score accrues entirely into the single bucket its name
routes to: each pre-normalization bucket value is exactly the sum of the
scores whose class name routes there. -/
theorem claim_C6_scene_routing :
    bucketOf "Engine" = "noise" ∧ bucketOf "Singing" = "music"
    ∧ bucketOf "Dog barking" = "other"
    ∧ ∀ (scores : List ℚ) (names : List String) (b : String),
        bval (collapsePre scores names) b
          = (((scores.zip names).filter (fun p => bucketOf p.2 = b)).map
              Prod.fst).sum := by
  refine ⟨by decide, by decide, by decide, ?_⟩
  intro scores names b
  rw [collapsePre, collapseGo_bval, bval_bucketInit, zero_add]

/-- C9: the scene collapse is mass-preserving before renormalization:
with equally long score and class-name lists, the bucket total equals the
sum of all input scores. -/
theorem claim_C9_mass_preservation (scores : List ℚ) (names : List String)
    (hlen : scores.length = names.length) :
    bucketsTotal (collapsePre scores names) = scores.sum :=
  collapsePre_total scores names hlen

/-- Witness for C9 at concrete inputs of equal length. -/
theorem claim_C9_witness :
    ([ (1 : ℚ), 2 ] : List ℚ).length = (["Engine", "Dog barking"] : List String).length
    ∧ bucketsTotal (collapsePre [1, 2] ["Engine", "Dog barking"])
        = ([ (1 : ℚ), 2 ] : List ℚ).sum :=
  ⟨rfl, claim_C9_mass_preservation [1, 2] ["Engine", "Dog barking"] rfl⟩

/-- C4: an all-zero score vector produces all-zero buckets and skips the
renormalization division; a non-negative score vector with at least one
nonzero entry (paired with an equally long class-name list) produces
buckets summing to exactly one. -/
theorem claim_C4_scene_renormalization (scores : List ℚ) (names : List String) :
    ((∀ q ∈ scores, q = 0) →
        _collapse_scene scores names = collapsePre scores names
        ∧ ∀ b, bval (_collapse_scene scores names) b = 0)
    ∧ (scores.length = names.length → (∀ q ∈ scores, 0 ≤ q) →
        (∃ q ∈ scores, q ≠ 0) →
        bucketsTotal (_collapse_scene scores names) = 1) := by
  constructor
  · intro h0
    have hpre : collapsePre scores names = bucketInit := by
      refine collapseGo_zero (scores.zip names) ?_ bucketInit
      intro p hp
      obtain ⟨a, c⟩ := p
      exact h0 a (List.mem_zip hp).1
    have htot0 : bucketsTotal (collapsePre scores names) = 0 := by
      rw [hpre]
      norm_num [bucketsTotal, bucketInit]
    have hcoll : _collapse_scene scores names = collapsePre scores names := by
      rw [collapse_scene_eq, htot0]
      norm_num
    refine ⟨hcoll, ?_⟩
    intro b
    rw [hcoll, hpre, bval_bucketInit]
  · intro hlen hnn hex
    obtain ⟨q, hq, hqne⟩ := hex
    have hpos : 0 < scores.sum :=
      lt_of_lt_of_le (lt_of_le_of_ne (hnn q hq) (Ne.symm hqne))
        (List.single_le_sum hnn q hq)
    have htot : 0 < bucketsTotal (collapsePre scores names) := by
      rw [collapsePre_total scores names hlen]
      exact hpos
    have hdiv : ∀ (B : Buckets) (t : ℚ),
        bucketsTotal ⟨B.speech / t, B.music / t, B.silence / t, B.noise / t,
          B.other / t⟩ = bucketsTotal B / t := by
      intro B t
      rw [bucketsTotal_def, bucketsTotal_def]
      ring
    rw [collapse_scene_eq, if_pos htot, hdiv, div_self (ne_of_gt htot)]

/-- Witness for C4 at a concrete positive score vector. -/
theorem claim_C4_witness :
    ([ (1 : ℚ), 1 ] : List ℚ).length = (["Engine", "Singing"] : List String).length
    ∧ bucketsTotal (_collapse_scene [1, 1] ["Engine", "Singing"]) = 1 :=
  ⟨rfl, (claim_C4_scene_renormalization [1, 1] ["Engine", "Singing"]).2 rfl
    (by norm_num) ⟨1, by norm_num, by norm_num⟩⟩

/-- C8: for every emotion and scene result, the returned label is a
Python-style argmax of the returned scores dict and the returned
confidence equals the score stored at that label. -/
theorem claim_C8_argmax_confidence :
    (∀ out : List ModelEntry,
        isArgmax (EmotionClassifier.classify out).scores
          (EmotionClassifier.classify out).label
        ∧ (EmotionClassifier.classify out).confidence
            = lookupD (EmotionClassifier.classify out).scores
                (EmotionClassifier.classify out).label)
    ∧ (∀ (avg_scores : List ℚ) (class_names : List String),
        isArgmax (SceneClassifier.classify avg_scores class_names).scores
          (SceneClassifier.classify avg_scores class_names).label
        ∧ (SceneClassifier.classify avg_scores class_names).confidence
            = lookupD (SceneClassifier.classify avg_scores class_names).scores
                (SceneClassifier.classify avg_scores class_names).label) := by
  constructor
  · intro out
    have hg := emotion_scores_good out
    have hres := argmax_of_goodDict _ hg.1 hg.2.1 hg.2.2
    constructor
    · rw [emotion_label_eq]
      exact hres.1
    · rw [emotion_confidence_eq, emotion_label_eq]
      exact hres.2
  · intro avg names
    have hne : bucketsToList (_collapse_scene avg names) ≠ [] := by
      simp [bucketsToList]
    obtain ⟨p, hp, hpk, hmax⟩ := maxKey_spec _ hne
    have hnd : ((bucketsToList (_collapse_scene avg names)).map Prod.fst).Nodup := by
      simp [bucketsToList]
    have hlook : lookupD (bucketsToList (_collapse_scene avg names))
        (maxKey (bucketsToList (_collapse_scene avg names))) = p.2 := by
      rw [← hpk]
      exact lookupD_eq_of_mem _ p hnd hp
    constructor
    · rw [scene_label_eq, scene_scores_eq]
      constructor
      · exact ⟨(p.1, pyRound4 p.2), List.mem_map_of_mem _ hp, hpk⟩
      · intro c hc
        obtain ⟨a, ha, rfl⟩ := List.mem_map.mp hc
        rw [lookupD_map_round, hlook]
        exact pyRound4_mono (hmax a ha)
    · rw [scene_confidence_eq, scene_scores_eq, scene_label_eq, lookupD_map_round]

/-- Witness for C8 at the empty model output. -/
theorem claim_C8_witness :
    (EmotionClassifier.classify []).confidence
      = lookupD (EmotionClassifier.classify []).scores
          (EmotionClassifier.classify []).label :=
  (claim_C8_argmax_confidence.1 []).2

/-- C1 counterexample: on an empty model output the classify result is
not the claimed neutral-with-confidence-one fallback; the labels list
defaults to the whole vocabulary, so the scores dict is nonempty and the
fallback branch never fires. -/
theorem claim_C1_counterexample :
    ¬ ((EmotionClassifier.classify ([] : List ModelEntry)).confidence = 1
       ∧ (EmotionClassifier.classify ([] : List ModelEntry)).scores
           = [("neutral", 1)]) := by
  intro h
  have h01 : (0 : ℚ) = 1 := by
    rw [← classify_nil_eval.2.1]
    exact h.1
  norm_num at h01

/-- C1 (amended): an empty model output yields label neutral with
confidence 0.0 and a scores dict mapping every vocabulary label to 0.0;
the neutral-1.0 fallback result arises exactly in the case that the
extracted labels list is empty, e.g. an entry whose labels field is the
empty list. -/
theorem claim_C1_empty_model_output :
    (EmotionClassifier.classify ([] : List ModelEntry)).label = "neutral"
    ∧ (EmotionClassifier.classify ([] : List ModelEntry)).confidence = 0
    ∧ (EmotionClassifier.classify ([] : List ModelEntry)).scores
        = [("neutral", 0), ("happy", 0), ("angry", 0), ("sad", 0),
           ("frustrated", 0), ("surprised", 0)]
    ∧ (EmotionClassifier.classify
          [{ labels := .many [], scores := .many [] }]).label = "neutral"
    ∧ (EmotionClassifier.classify
          [{ labels := .many [], scores := .many [] }]).confidence = 1
    ∧ (EmotionClassifier.classify
          [{ labels := .many [], scores := .many [] }]).scores
        = [("neutral", 1)] := by
  have hs : (EmotionClassifier.classify
      [({ labels := .many [], scores := .many [] } : ModelEntry)]).scores
      = [("neutral", 1)] := by
    rw [emotion_scores_eq]
    simp [List.headD, extractLabels, extractScores, buildScores_nil]
  have hl : (EmotionClassifier.classify
      [({ labels := .many [], scores := .many [] } : ModelEntry)]).label
      = "neutral" := by
    rw [emotion_label_eq, hs]
    simp [maxKey]
  have hc : (EmotionClassifier.classify
      [({ labels := .many [], scores := .many [] } : ModelEntry)]).confidence
      = 1 := by
    rw [emotion_confidence_eq, hs, hl]
    simp [lookupD, List.find?, pyRound4_one]
  exact ⟨classify_nil_eval.1, classify_nil_eval.2.1, classify_nil_eval.2.2,
    hl, hc, hs⟩

/-- C2 counterexample: a model output with seven labels whose seventh is
outside the vocabulary produces a scores key outside the fixed emotion
vocabulary, because beyond the vocabulary length the mapping falls back
to the literal label. -/
theorem claim_C2_counterexample :
    ("bored", (1 : ℚ)) ∈ (EmotionClassifier.classify
      [{ labels := .many ["neutral", "happy", "angry", "sad", "frustrated",
                          "surprised", "bored"],
         scores := .many [0, 0, 0, 0, 0, 0, 1] }]).scores
    ∧ "bored" ∉ EMOTION_LABELS := by
  have hb : buildScores [0, 0, 0, 0, 0, 0, 1] [] 0
      ["neutral", "happy", "angry", "sad", "frustrated", "surprised", "bored"]
      = [("neutral", 0), ("happy", 0), ("angry", 0), ("sad", 0),
         ("frustrated", 0), ("surprised", 0), ("bored", 1)] := by
    iterate 7 (rw [buildScores_cons]
               simp [dictInsert, mappedLabel, scoreAt, EMOTION_LABELS,
                 List.contains, List.elem, List.getD, List.get?,
                 pyRound4_zero, pyRound4_one])
    simp only [buildScores_nil]
  have hs : (EmotionClassifier.classify
      [({ labels := .many ["neutral", "happy", "angry", "sad", "frustrated",
                           "surprised", "bored"],
          scores := .many [0, 0, 0, 0, 0, 0, 1] } : ModelEntry)]).scores
      = [("neutral", 0), ("happy", 0), ("angry", 0), ("sad", 0),
         ("frustrated", 0), ("surprised", 0), ("bored", 1)] := by
    rw [emotion_scores_eq]
    simp only [List.headD, extractLabels, extractScores]
    rw [hb]
    simp
  refine ⟨?_, by decide⟩
  rw [hs]
  simp

/-- C2 (amended): the emotion scores dict uses only keys from the fixed
vocabulary whenever the model returns at most as many labels as the
vocabulary has entries (the source leaks the literal label for positions
beyond the vocabulary); the scene scores dict always uses exactly the
five fixed bucket keys. -/
theorem claim_C2_score_keys :
    (∀ out : List ModelEntry,
        (extractLabels (out.headD emptyEntry).labels).length
            ≤ EMOTION_LABELS.length →
        ∀ p ∈ (EmotionClassifier.classify out).scores, p.1 ∈ EMOTION_LABELS)
    ∧ (∀ (avg_scores : List ℚ) (class_names : List String),
        ∀ p ∈ (SceneClassifier.classify avg_scores class_names).scores,
          p.1 ∈ ["speech", "music", "silence", "noise", "other"]) := by
  constructor
  · intro out hlen p hp
    rw [emotion_scores_eq] at hp
    by_cases h : (buildScores (extractScores (out.headD emptyEntry).scores) [] 0
        (extractLabels (out.headD emptyEntry).labels)).isEmpty
    · rw [if_pos h] at hp
      rw [List.mem_singleton.mp hp]
      simp [EMOTION_LABELS]
    · rw [if_neg h] at hp
      exact buildScores_keys _ _ 0 [] (by simp) (by simpa using hlen) p hp
  · intro avg names p hp
    rw [scene_scores_eq] at hp
    obtain ⟨a, ha, rfl⟩ := List.mem_map.mp hp
    simp only [bucketsToList, List.mem_cons, List.not_mem_nil, or_false] at ha
    rcases ha with h | h | h | h | h <;> subst h <;> simp

/-- Witness for C2 at the empty model output, whose six default labels
satisfy the length bound. -/
theorem claim_C2_witness : ("neutral" : String) ∈ EMOTION_LABELS :=
  (claim_C2_score_keys.1 [] (by decide)) ("neutral", 0)
    (by rw [classify_nil_eval.2.2]; simp)

/-- C5 counterexample: at position 6, past the six-entry vocabulary, an
out-of-vocabulary label is mapped to itself rather than to any vocabulary
entry, and that literal key reaches the classify result. -/
theorem claim_C5_counterexample :
    mappedLabel "excited" 6 = "excited" ∧ "excited" ∉ EMOTION_LABELS
    ∧ ("excited", (0 : ℚ)) ∈ (EmotionClassifier.classify
        [{ labels := .many ["neutral", "happy", "angry", "sad", "frustrated",
                            "surprised", "excited"],
           scores := .absent }]).scores := by
  have hb : buildScores [] [] 0
      ["neutral", "happy", "angry", "sad", "frustrated", "surprised", "excited"]
      = [("neutral", 0), ("happy", 0), ("angry", 0), ("sad", 0),
         ("frustrated", 0), ("surprised", 0), ("excited", 0)] := by
    iterate 7 (rw [buildScores_cons]
               simp [dictInsert, mappedLabel, scoreAt, EMOTION_LABELS,
                 List.contains, List.elem])
    simp only [buildScores_nil]
  have hs : (EmotionClassifier.classify
      [({ labels := .many ["neutral", "happy", "angry", "sad", "frustrated",
                           "surprised", "excited"],
          scores := .absent } : ModelEntry)]).scores
      = [("neutral", 0), ("happy", 0), ("angry", 0), ("sad", 0),
         ("frustrated", 0), ("surprised", 0), ("excited", 0)] := by
    rw [emotion_scores_eq]
    simp only [List.headD, extractLabels, extractScores]
    rw [hb]
    simp
  refine ⟨by decide, by decide, ?_⟩
  rw [hs]
  simp

/-- C5 (amended): a returned label is mapped to itself when it is in the
vocabulary; an out-of-vocabulary label at a position inside the
vocabulary is mapped to the vocabulary entry at that position; an
out-of-vocabulary label at a position past the vocabulary is mapped to
itself; a position past the scores list receives score 0.0. -/
theorem claim_C5_label_mapping (lbl : String) (i : ℕ) (probs : List ℚ) :
    (lbl ∈ EMOTION_LABELS → mappedLabel lbl i = lbl)
    ∧ (lbl ∉ EMOTION_LABELS → i < EMOTION_LABELS.length →
        mappedLabel lbl i = EMOTION_LABELS.getD i lbl)
    ∧ (lbl ∉ EMOTION_LABELS → EMOTION_LABELS.length ≤ i →
        mappedLabel lbl i = lbl)
    ∧ (probs.length ≤ i → scoreAt probs i = 0) := by
  refine ⟨?_, ?_, ?_, ?_⟩
  · intro h
    unfold mappedLabel
    rw [if_pos (by simpa using h)]
  · intro h hi
    unfold mappedLabel
    rw [if_neg (by simpa using h), if_pos hi]
  · intro h hi
    unfold mappedLabel
    rw [if_neg (by simpa using h), if_neg (by omega)]
  · intro h
    unfold scoreAt
    rw [if_neg (by omega)]

/-- Witness for C5: a vocabulary label maps to itself and a position past
the scores list scores zero. -/
theorem claim_C5_witness :
    mappedLabel "happy" 1 = "happy" ∧ scoreAt [] 0 = 0 :=
  ⟨(claim_C5_label_mapping "happy" 1 []).1 (by decide),
   (claim_C5_label_mapping "happy" 0 []).2.2.2 (by decide)⟩

/-- C7: on model output labels happy and angry with scores 0.3 and 0.7
the result is label angry, confidence 0.7, and a two-entry scores dict;
the equality of the dict with the two-entry list shows every other fixed
emotion label absent. -/
theorem claim_C7_two_label_output :
    (EmotionClassifier.classify
        [{ labels := .many ["happy", "angry"],
           scores := .many [3/10, 7/10] }]).label = "angry"
    ∧ (EmotionClassifier.classify
        [{ labels := .many ["happy", "angry"],
           scores := .many [3/10, 7/10] }]).confidence = 7/10
    ∧ (EmotionClassifier.classify
        [{ labels := .many ["happy", "angry"],
           scores := .many [3/10, 7/10] }]).scores
        = [("happy", 3/10), ("angry", 7/10)] := by
  have h3 : pyRound4 (3/10) = 3/10 := pyRound4_fix_of _ 3000 (by norm_num)
  have h7 : pyRound4 (7/10) = 7/10 := pyRound4_fix_of _ 7000 (by norm_num)
  have hb : buildScores [3/10, 7/10] [] 0 ["happy", "angry"]
      = [("happy", (3 : ℚ)/10), ("angry", (7 : ℚ)/10)] := by
    iterate 2 (rw [buildScores_cons]
               simp [dictInsert, mappedLabel, scoreAt, EMOTION_LABELS,
                 List.contains, List.elem, List.getD, List.get?, h3, h7])
    simp only [buildScores_nil]
  have hs : (EmotionClassifier.classify
      [({ labels := .many ["happy", "angry"],
          scores := .many [3/10, 7/10] } : ModelEntry)]).scores
      = [("happy", (3 : ℚ)/10), ("angry", (7 : ℚ)/10)] := by
    rw [emotion_scores_eq]
    simp only [List.headD, extractLabels, extractScores]
    rw [hb]
    simp
  have hl : (EmotionClassifier.classify
      [({ labels := .many ["happy", "angry"],
          scores := .many [3/10, 7/10] } : ModelEntry)]).label = "angry" := by
    rw [emotion_label_eq, hs]
    norm_num [maxKey, maxStep, List.foldl]
  have hc : (EmotionClassifier.classify
      [({ labels := .many ["happy", "angry"],
          scores := .many [3/10, 7/10] } : ModelEntry)]).confidence
      = 7/10 := by
    rw [emotion_confidence_eq, hs, hl]
    simp [lookupD, List.find?, h7]
  exact ⟨hl, hc, hs⟩

end AudioClassify
